import Mathlib

/-!
# Verification of the Vienna Vulkan Engine scene/render core

A shallow embedding, over exact rationals and reals, of the scene-graph,
shadow-mapping and frame-scheduling code of the engine
(`VEEntity.cpp`, `VEMaterial.cpp`, `VERendererForward.cpp`,
`VESceneManager.cpp`), together with proofs and refutations of the
specified properties.
-/

set_option maxHeartbeats 1000000

namespace VVE

--------------------------------------------------------------------------
-- §1  Scene graph: world transforms (VESceneNode::getWorldTransform)
--------------------------------------------------------------------------

/-- 4×4 rational matrix standing in for `glm::mat4`. -/
abbrev Mat4 := Matrix (Fin 4) (Fin 4) ℚ

/-- Scene-graph state of `VESceneNode` as far as transforms are concerned:
nodes are identified by naturals; `parent` is the `m_parent` pointer
(`none` = `nullptr`), `transform` the local `m_transform`. -/
structure SceneTransforms where
  parent : Nat → Option Nat
  transform : Nat → Mat4

/-- `VESceneNode::getWorldTransform` (VEEntity.cpp:114-117):
`if (m_parent != nullptr) return m_parent->getWorldTransform() * m_transform;
return m_transform;`.  The C++ recursion walks the parent chain; the fuel
argument bounds that walk (any fuel at least the node's depth gives the
same value, see `getWorldTransform_stable`). -/
def getWorldTransform (s : SceneTransforms) : Nat → Nat → Mat4
  | 0, n => s.transform n
  | fuel+1, n =>
    match s.parent n with
    | none => s.transform n
    | some p => getWorldTransform s fuel p * s.transform n

/-- The parent chain `[n, parent n, grandparent n, …, root]`. -/
def parentChain (s : SceneTransforms) : Nat → Nat → List Nat
  | 0, n => [n]
  | fuel+1, n =>
    match s.parent n with
    | none => [n]
    | some p => n :: parentChain s fuel p

/-- The parent chain of `n` reaches a parentless root within `fuel` steps. -/
def reachesRoot (s : SceneTransforms) : Nat → Nat → Bool
  | 0, n => (s.parent n).isNone
  | fuel+1, n =>
    match s.parent n with
    | none => true
    | some p => reachesRoot s fuel p

theorem getWorldTransform_succ_none (s : SceneTransforms) {n : Nat} (fuel : Nat)
    (h : s.parent n = none) :
    getWorldTransform s (fuel+1) n = s.transform n := by
  conv_lhs => unfold getWorldTransform
  rw [h]

theorem getWorldTransform_succ_some (s : SceneTransforms) {n p : Nat} (fuel : Nat)
    (h : s.parent n = some p) :
    getWorldTransform s (fuel+1) n
      = getWorldTransform s fuel p * s.transform n := by
  conv_lhs => unfold getWorldTransform
  rw [h]

theorem parentChain_succ_none (s : SceneTransforms) {n : Nat} (fuel : Nat)
    (h : s.parent n = none) : parentChain s (fuel+1) n = [n] := by
  conv_lhs => unfold parentChain
  rw [h]

theorem parentChain_succ_some (s : SceneTransforms) {n p : Nat} (fuel : Nat)
    (h : s.parent n = some p) :
    parentChain s (fuel+1) n = n :: parentChain s fuel p := by
  conv_lhs => unfold parentChain
  rw [h]

theorem reachesRoot_succ_none (s : SceneTransforms) {n : Nat} (fuel : Nat)
    (h : s.parent n = none) : reachesRoot s (fuel+1) n = true := by
  conv_lhs => unfold reachesRoot
  rw [h]

theorem reachesRoot_succ_some (s : SceneTransforms) {n p : Nat} (fuel : Nat)
    (h : s.parent n = some p) :
    reachesRoot s (fuel+1) n = reachesRoot s fuel p := by
  conv_lhs => unfold reachesRoot
  rw [h]

theorem reachesRoot_succ (s : SceneTransforms) :
    ∀ fuel n, reachesRoot s fuel n = true → reachesRoot s (fuel+1) n = true := by
  intro fuel
  induction fuel with
  | zero =>
    intro n h
    simp only [reachesRoot, Option.isNone_iff_eq_none] at h
    simp [reachesRoot, h]
  | succ f ih =>
    intro n h
    cases hp : s.parent n with
    | none => exact reachesRoot_succ_none s (f+1) hp
    | some p =>
      rw [reachesRoot_succ_some s f hp] at h
      rw [reachesRoot_succ_some s (f+1) hp]
      exact ih p h

theorem getWorldTransform_stable (s : SceneTransforms) :
    ∀ fuel n, reachesRoot s fuel n = true →
      getWorldTransform s (fuel+1) n = getWorldTransform s fuel n := by
  intro fuel
  induction fuel with
  | zero =>
    intro n h
    simp only [reachesRoot, Option.isNone_iff_eq_none] at h
    rw [getWorldTransform_succ_none s 0 h]
    rfl
  | succ f ih =>
    intro n h
    cases hp : s.parent n with
    | none => rw [getWorldTransform_succ_none s (f+1) hp,
        getWorldTransform_succ_none s f hp]
    | some p =>
      rw [reachesRoot_succ_some s f hp] at h
      rw [getWorldTransform_succ_some s (f+1) hp,
        getWorldTransform_succ_some s f hp, ih p h]

theorem parentChain_stable (s : SceneTransforms) :
    ∀ fuel n, reachesRoot s fuel n = true →
      parentChain s (fuel+1) n = parentChain s fuel n := by
  intro fuel
  induction fuel with
  | zero =>
    intro n h
    simp only [reachesRoot, Option.isNone_iff_eq_none] at h
    rw [parentChain_succ_none s 0 h]
    rfl
  | succ f ih =>
    intro n h
    cases hp : s.parent n with
    | none => rw [parentChain_succ_none s (f+1) hp, parentChain_succ_none s f hp]
    | some p =>
      rw [reachesRoot_succ_some s f hp] at h
      rw [parentChain_succ_some s (f+1) hp, parentChain_succ_some s f hp,
        ih p h]

theorem getWorldTransform_fold (s : SceneTransforms) :
    ∀ fuel n, reachesRoot s fuel n = true →
      getWorldTransform s fuel n
        = ((parentChain s fuel n).reverse.map s.transform).prod := by
  intro fuel
  induction fuel with
  | zero =>
    intro n _
    simp [getWorldTransform, parentChain]
  | succ f ih =>
    intro n h
    cases hp : s.parent n with
    | none =>
      rw [getWorldTransform_succ_none s f hp, parentChain_succ_none s f hp]
      simp
    | some p =>
      rw [reachesRoot_succ_some s f hp] at h
      rw [getWorldTransform_succ_some s f hp, parentChain_succ_some s f hp]
      simp only [List.reverse_cons, List.map_append, List.map_cons,
        List.map_nil, List.prod_append, List.prod_cons, List.prod_nil,
        mul_one]
      rw [ih p h]

/-- **C1.** For a node `N` with parent `P`, `getWorldTransform(N) =
getWorldTransform(P) * localTransform(N)`; for a parentless node it is the
local transform; and the world transform is the fold (product) of the local
transforms along the parent chain up to the root — recomputed on demand
from the current `transform` data, with no cache in the state. -/
theorem getWorldTransform_spec (s : SceneTransforms) (n p fuel : Nat)
    (hroot : reachesRoot s fuel n = true) :
    (s.parent n = some p →
      getWorldTransform s fuel n
        = getWorldTransform s fuel p * s.transform n)
    ∧ (s.parent n = none → getWorldTransform s fuel n = s.transform n)
    ∧ getWorldTransform s fuel n
        = ((parentChain s fuel n).reverse.map s.transform).prod := by
  refine ⟨?_, ?_, getWorldTransform_fold s fuel n hroot⟩
  · intro hp
    cases fuel with
    | zero =>
      simp only [reachesRoot, hp, Option.isNone_some] at hroot
      exact absurd hroot (by decide)
    | succ f =>
      rw [reachesRoot_succ_some s f hp] at hroot
      rw [getWorldTransform_succ_some s f hp,
        getWorldTransform_stable s f p hroot]
  · intro hp
    cases fuel with
    | zero => rfl
    | succ f => rw [getWorldTransform_succ_none s f hp]

/-- Concrete two-node scene: node 1 is a child of root 0, both with
identity local transform. -/
def sceneC1 : SceneTransforms where
  parent := fun n => if n = 1 then some 0 else none
  transform := fun _ => (1 : Mat4)

theorem getWorldTransform_spec_witness :
    reachesRoot sceneC1 2 1 = true
    ∧ ((sceneC1.parent 1 = some 0 →
        getWorldTransform sceneC1 2 1
          = getWorldTransform sceneC1 2 0 * sceneC1.transform 1)
      ∧ (sceneC1.parent 1 = none →
        getWorldTransform sceneC1 2 1 = sceneC1.transform 1)
      ∧ getWorldTransform sceneC1 2 1
          = ((parentChain sceneC1 2 1).reverse.map sceneC1.transform).prod) :=
  ⟨by decide, getWorldTransform_spec sceneC1 1 0 2 (by decide)⟩

--------------------------------------------------------------------------
-- §2  Scene graph: child lists (VESceneNode::addChild / removeChild)
--------------------------------------------------------------------------

/-- Parent/children state of the scene graph: `parent n` is node `n`'s
`m_parent` pointer, `children n` its `m_children` vector. -/
structure SceneGraph where
  parent : Nat → Option Nat
  children : Nat → List Nat

/-- The removal loop of `VESceneNode::removeChild` (VEEntity.cpp:170-179):
scan from the front; at the first element equal to `e`, overwrite that slot
with the vector's last element and `pop_back`; if `e` is absent, leave the
vector unchanged.  While the scan passes a cell `a ≠ e`, the last element
of the remaining suffix is the last element of the whole vector, so the
loop is the recursion below: overwriting the found slot with the last
element and popping yields `last :: rest.dropLast` when the match is not
the final cell, and plain removal of the final cell when it is. -/
def swapRemove : List Nat → Nat → List Nat
  | [], _ => []
  | a :: t, e =>
    if a = e then
      match t with
      | [] => []
      | b :: u => (b :: u).getLast (List.cons_ne_nil b u) :: (b :: u).dropLast
    else a :: swapRemove t e

/-- `VESceneNode::removeChild` (VEEntity.cpp:170-179): removes `e` from
`this`'s child vector via the swap-with-last loop; the child's `m_parent`
pointer is NOT reset. -/
def removeChild (s : SceneGraph) (this e : Nat) : SceneGraph :=
  { s with children :=
      Function.update s.children this (swapRemove (s.children this) e) }

/-- The first half of `VESceneNode::addChild` (VEEntity.cpp:155-157):
`if (pObject->m_parent != nullptr) pObject->m_parent->removeChild(pObject);` -/
def detachFromParent (s : SceneGraph) (e : Nat) : SceneGraph :=
  match s.parent e with
  | some a => removeChild s a e
  | none => s

/-- `VESceneNode::addChild` (VEEntity.cpp:154-161): detach from the old
parent if any, then set the child's `m_parent` to `this` and `push_back`
the child onto `this`'s child vector. -/
def addChild (s : SceneGraph) (this e : Nat) : SceneGraph :=
  { parent := Function.update (detachFromParent s e).parent e (some this),
    children := Function.update (detachFromParent s e).children this
      ((detachFromParent s e).children this ++ [e]) }

/-- One scene-graph mutation: `addChild` or `removeChild`. -/
inductive ChildOp where
  | add (parent child : Nat)
  | remove (parent child : Nat)

def applyChildOp (s : SceneGraph) : ChildOp → SceneGraph
  | .add p c => addChild s p c
  | .remove p c => removeChild s p c

def runChildOps (s : SceneGraph) (ops : List ChildOp) : SceneGraph :=
  ops.foldl applyChildOp s

/-- The part of well-formedness that the operations preserve: child
vectors are duplicate-free, and a node found in some parent's child vector
has its `m_parent` pointing at that parent. -/
def ChildInv (s : SceneGraph) : Prop :=
  (∀ n, (s.children n).Nodup)
  ∧ (∀ p n, n ∈ s.children p → s.parent n = some p)

theorem swapRemove_perm_erase (e : Nat) :
    ∀ l : List Nat, List.Perm (swapRemove l e) (l.erase e) := by
  intro l
  induction l with
  | nil => simp [swapRemove]
  | cons a t ih =>
    by_cases ha : a = e
    · subst ha
      rw [List.erase_cons_head]
      cases t with
      | nil => simp [swapRemove]
      | cons b u =>
        simp only [swapRemove, if_pos rfl]
        have hne : (b :: u) ≠ [] := List.cons_ne_nil b u
        conv_rhs => rw [← List.dropLast_append_getLast hne]
        exact (List.perm_append_singleton _ _).symm
    · rw [List.erase_cons_tail]
      · simpa [swapRemove, ha] using ih.cons a
      · simpa using ha

theorem swapRemove_subset {l : List Nat} {e x : Nat}
    (h : x ∈ swapRemove l e) : x ∈ l :=
  List.mem_of_mem_erase ((swapRemove_perm_erase e l).mem_iff.mp h)

theorem swapRemove_nodup {l : List Nat} {e : Nat} (h : l.Nodup) :
    (swapRemove l e).Nodup :=
  ((swapRemove_perm_erase e l).nodup_iff).mpr (h.erase e)

theorem swapRemove_not_mem {l : List Nat} {e : Nat} (h : l.Nodup) :
    e ∉ swapRemove l e := by
  intro hmem
  have hm := (swapRemove_perm_erase e l).mem_iff.mp hmem
  exact absurd (h.mem_erase_iff.mp hm).1 (by simp)

theorem removeChild_childInv {s : SceneGraph} (a e : Nat)
    (h : ChildInv s) : ChildInv (removeChild s a e) := by
  obtain ⟨hnd, hpar⟩ := h
  constructor
  · intro n
    by_cases hn : n = a
    · subst hn
      simpa [removeChild] using swapRemove_nodup (hnd n)
    · simpa [removeChild, Function.update_noteq hn] using hnd n
  · intro p n hmem
    by_cases hp : p = a
    · subst hp
      simp only [removeChild, Function.update_same] at hmem
      exact hpar _ n (swapRemove_subset hmem)
    · simp only [removeChild, Function.update_noteq hp] at hmem
      exact hpar p n hmem

theorem detachFromParent_parent (s : SceneGraph) (e : Nat) :
    (detachFromParent s e).parent = s.parent := by
  unfold detachFromParent
  cases s.parent e with
  | none => rfl
  | some a => rfl

theorem detachFromParent_childInv {s : SceneGraph} (e : Nat)
    (h : ChildInv s) : ChildInv (detachFromParent s e) := by
  unfold detachFromParent
  cases s.parent e with
  | none => exact h
  | some a => exact removeChild_childInv a e h

/-- After the detach step of `addChild`, the child is in nobody's list. -/
theorem detachFromParent_not_mem {s : SceneGraph} (e : Nat)
    (h : ChildInv s) : ∀ q, e ∉ (detachFromParent s e).children q := by
  obtain ⟨hnd, hpar⟩ := h
  intro q hmem
  unfold detachFromParent at hmem
  cases hpe : s.parent e with
  | none =>
    rw [hpe] at hmem
    exact absurd (hpar q e hmem) (by simp [hpe])
  | some a =>
    rw [hpe] at hmem
    by_cases hq : q = a
    · subst hq
      simp only [removeChild, Function.update_same] at hmem
      exact swapRemove_not_mem (hnd q) hmem
    · simp only [removeChild, Function.update_noteq hq] at hmem
      have hq2 := hpar q e hmem
      rw [hpe] at hq2
      exact hq (Option.some_injective _ hq2).symm

theorem addChild_childInv {s : SceneGraph} (b e : Nat)
    (h : ChildInv s) : ChildInv (addChild s b e) := by
  have hdet := detachFromParent_not_mem e h
  obtain ⟨hnd1, hp1⟩ := detachFromParent_childInv e h
  constructor
  · intro n
    by_cases hn : n = b
    · subst hn
      simp only [addChild, Function.update_same]
      rw [List.nodup_append]
      refine ⟨hnd1 n, List.nodup_singleton e, ?_⟩
      intro x hx hx2
      rw [List.mem_singleton] at hx2
      exact hdet n (hx2 ▸ hx)
    · simp only [addChild, Function.update_noteq hn]
      exact hnd1 n
  · intro p n hmem
    by_cases hp : p = b
    · subst hp
      simp only [addChild, Function.update_same, List.mem_append,
        List.mem_singleton] at hmem
      rcases hmem with hmem | rfl
      · have hne : n ≠ e := fun hne => hdet p (hne ▸ hmem)
        simp only [addChild, Function.update_noteq hne]
        rw [detachFromParent_parent]
        rw [detachFromParent_parent] at hp1
        exact hp1 p n hmem
      · simp [addChild]
    · simp only [addChild, Function.update_noteq hp] at hmem
      have hne : n ≠ e := fun hne => hdet p (hne ▸ hmem)
      simp only [addChild, Function.update_noteq hne]
      rw [detachFromParent_parent]
      rw [detachFromParent_parent] at hp1
      exact hp1 p n hmem

theorem runChildOps_childInv {s : SceneGraph} (ops : List ChildOp)
    (h : ChildInv s) : ChildInv (runChildOps s ops) := by
  induction ops generalizing s with
  | nil => exact h
  | cons op rest ih =>
    cases op with
    | add p c => exact ih (addChild_childInv p c h)
    | remove p c => exact ih (removeChild_childInv p c h)

/-- **C2 (amended).** Starting from a state whose child vectors are
duplicate-free and consistent with the parent pointers, after any sequence
of `addChild`/`removeChild` operations: every node still appears in the
child vector of at most one parent (and at most once there), and whenever
a node is in some parent's child vector its `m_parent` names that parent;
moreover `addChild(B,N)` first detaches `N` from its previous parent's
child vector, so afterwards `N` is in `B`'s vector and in nobody else's.
(The converse direction of the original claim — that a non-null `m_parent`
always points to a node whose child list contains the child — is false: a
bare `removeChild` leaves the child's `m_parent` dangling, see
`removeChild_stale_parent`.) -/
theorem addChild_removeChild_invariant (s : SceneGraph) (ops : List ChildOp)
    (h : ChildInv s) :
    (∀ n, ((runChildOps s ops).children n).Nodup)
    ∧ (∀ p n, n ∈ (runChildOps s ops).children p →
        (runChildOps s ops).parent n = some p)
    ∧ (∀ p q x, x ∈ (runChildOps s ops).children p →
        x ∈ (runChildOps s ops).children q → p = q)
    ∧ (∀ b n, n ∈ (addChild (runChildOps s ops) b n).children b
        ∧ ∀ q, q ≠ b → n ∉ (addChild (runChildOps s ops) b n).children q) := by
  have hinv := runChildOps_childInv ops h
  obtain ⟨hnd, hpar⟩ := hinv
  refine ⟨hnd, hpar, ?_, ?_⟩
  · intro p q x hp hq
    have h1 := hpar p x hp
    have h2 := hpar q x hq
    rw [h1] at h2
    exact Option.some_injective _ h2
  · intro b n
    have hinv2 : ChildInv (addChild (runChildOps s ops) b n) :=
      addChild_childInv b n ⟨hnd, hpar⟩
    have hmemb : n ∈ (addChild (runChildOps s ops) b n).children b := by
      simp [addChild]
    refine ⟨hmemb, ?_⟩
    intro q hq hmem
    have e1 := hinv2.2 q n hmem
    have e2 := hinv2.2 b n hmemb
    rw [e2] at e1
    exact hq (Option.some_injective _ e1).symm

/-- Concrete well-formed two-node tree: node 1 is the only child of
node 0. -/
def sceneC2 : SceneGraph where
  parent := fun n => if n = 1 then some 0 else none
  children := fun n => if n = 0 then [1] else []

/-- **C2 counterexample.** On the well-formed tree `sceneC2` (0's child
vector is exactly [1], node 1's parent is 0, everything else empty), a
single `removeChild(0, 1)` empties 0's child vector but leaves node 1's
`m_parent` pointing at 0 — so `m_parent` no longer names exactly the node
whose child list contains it, refuting the original claim. -/
theorem removeChild_stale_parent :
    sceneC2.children 0 = [1] ∧ sceneC2.parent 1 = some 0
    ∧ (removeChild sceneC2 0 1).children 0 = []
    ∧ (removeChild sceneC2 0 1).parent 1 = some 0
    ∧ 1 ∉ (removeChild sceneC2 0 1).children 0 :=
  ⟨rfl, rfl, by decide, rfl, by decide⟩

theorem addChild_removeChild_invariant_witness :
    (∀ n, ((runChildOps sceneC2 [ChildOp.add 2 1]).children n).Nodup)
    ∧ (∀ p n, n ∈ (runChildOps sceneC2 [ChildOp.add 2 1]).children p →
        (runChildOps sceneC2 [ChildOp.add 2 1]).parent n = some p)
    ∧ (∀ p q x, x ∈ (runChildOps sceneC2 [ChildOp.add 2 1]).children p →
        x ∈ (runChildOps sceneC2 [ChildOp.add 2 1]).children q → p = q)
    ∧ (∀ b n, n ∈ (addChild (runChildOps sceneC2 [ChildOp.add 2 1]) b n).children b
        ∧ ∀ q, q ≠ b →
          n ∉ (addChild (runChildOps sceneC2 [ChildOp.add 2 1]) b n).children q) :=
  addChild_removeChild_invariant sceneC2 [ChildOp.add 2 1]
    ⟨by
      intro n
      by_cases h : n = 0 <;> simp [sceneC2, h],
     by
      intro p n h
      by_cases hp : p = 0
      · subst hp
        simp [sceneC2] at h
        simp [sceneC2, h]
      · simp [sceneC2, hp] at h⟩

--------------------------------------------------------------------------
-- §3  Mesh bounding sphere (VEMesh constructors, VEMaterial.cpp)
--------------------------------------------------------------------------

/-- 3-component rational vector (`glm::vec3`). -/
structure Vec3Q where
  x : ℚ
  y : ℚ
  z : ℚ
deriving DecidableEq

/-- The squared bounding-sphere radius accumulated by both `VEMesh`
constructors (VEMaterial.cpp:28-66 and 102-115): starting from 0, each
vertex folds in
`std::max(std::max(std::max(x*x, y*y), z*z), m_boundingSphereRadius)`;
the constructor finally takes `sqrt` of the accumulated value, so the
stored radius is the square root of this quantity. -/
def veMeshBoundingSphereRadiusSq (vertices : List Vec3Q) : ℚ :=
  vertices.foldl
    (fun acc v => max (max (max (v.x*v.x) (v.y*v.y)) (v.z*v.z)) acc) 0

/-- Squared Euclidean distance of a vertex position from the local-space
origin. -/
def distSqFromOrigin (v : Vec3Q) : ℚ := v.x*v.x + v.y*v.y + v.z*v.z

/-- **C6 (code bug).** For the one-vertex mesh at position (1,1,1) the
accumulated squared radius is 1 — the code takes the maximum *squared
coordinate*, not the sum — while the squared Euclidean distance of the
vertex from the origin is 3.  Since `sqrt` is monotone, the stored radius
1 is strictly smaller than the vertex's distance √3, so the "bounding"
sphere does not contain the vertex, contradicting the claim (and the
identifier `m_boundingSphereRadius`). -/
theorem veMesh_boundingSphere_misses_vertex :
    veMeshBoundingSphereRadiusSq [⟨1,1,1⟩] = 1
    ∧ distSqFromOrigin ⟨1,1,1⟩ = 3
    ∧ veMeshBoundingSphereRadiusSq [⟨1,1,1⟩] < distSqFromOrigin ⟨1,1,1⟩ := by
  norm_num [veMeshBoundingSphereRadiusSq, distSqFromOrigin, max_def]

--------------------------------------------------------------------------
-- §4  Directional light shadow cascades (VEDirectionalLight)
--------------------------------------------------------------------------

/-- 4-component rational vector (`glm::vec4`). -/
structure Vec4Q where
  x : ℚ
  y : ℚ
  z : ℚ
  w : ℚ
deriving DecidableEq

def Vec4Q.smulQ (c : ℚ) (a : Vec4Q) : Vec4Q := ⟨c*a.x, c*a.y, c*a.z, c*a.w⟩

def Vec4Q.negQ (a : Vec4Q) : Vec4Q := Vec4Q.smulQ (-1) a

/-- `glm::dot` on `vec4`. -/
def Vec4Q.dotQ (a b : Vec4Q) : ℚ := a.x*b.x + a.y*b.y + a.z*b.z + a.w*b.w

/-- Column-major 4×4 rational matrix; `glm` stores `m[i]` as column `i`. -/
structure Mat4Q where
  c0 : Vec4Q
  c1 : Vec4Q
  c2 : Vec4Q
  c3 : Vec4Q
deriving DecidableEq

/-- `glm` matrix–vector product: the linear combination of the columns. -/
def Mat4Q.mulVecQ (m : Mat4Q) (v : Vec4Q) : Vec4Q :=
  ⟨m.c0.x*v.x + m.c1.x*v.y + m.c2.x*v.z + m.c3.x*v.w,
   m.c0.y*v.x + m.c1.y*v.y + m.c2.y*v.z + m.c3.y*v.w,
   m.c0.z*v.x + m.c1.z*v.y + m.c2.z*v.z + m.c3.z*v.w,
   m.c0.w*v.x + m.c1.w*v.y + m.c2.w*v.z + m.c3.w*v.w⟩

/-- `VESceneNode::setPosition` (VEEntity.cpp:56-58): overwrite column 3 of
the transform with `(pos, 1)`. -/
def Mat4Q.setPosition (m : Mat4Q) (p : Vec3Q) : Mat4Q :=
  { m with c3 := ⟨p.x, p.y, p.z, 1⟩ }

/-- The per-axis maximum ordinate of `VESceneNode::getOBB`
(VEEntity.cpp:271-284): `maxvalues[j]` starts at `dot(axes[j], points[0])`
and every later point raises it when larger.  (The C++ reads `points[0]`
unconditionally; an empty point list is undefined behaviour there and is
modelled by the default-zero head.) -/
def maxDot (axis : Vec4Q) (points : List Vec4Q) : ℚ :=
  points.tail.foldl
    (fun m p => if m < Vec4Q.dotQ axis p then Vec4Q.dotQ axis p else m)
    (Vec4Q.dotQ axis (points.headD ⟨0,0,0,0⟩))

/-- `VESceneNode::getOBB` (VEEntity.cpp:254-292) with `W` the node's world
transform: project the points onto the six signed local axis directions
`-W[0], W[0], -W[1], W[1], -W[2], W[2]`, combine the maxima into
width/height/depth and the center.  (The parameters `t1`, `t2` are unused
in the source body and are kept unused here; the `box` array of maximising
points is dead for the outputs and dropped.)  Returns
`(center, width, height, depth)`. -/
def getOBB (W : Mat4Q) (points : List Vec4Q) (_t1 _t2 : ℚ) :
    Vec3Q × ℚ × ℚ × ℚ :=
  let m0 := maxDot W.c0.negQ points
  let m1 := maxDot W.c0 points
  let m2 := maxDot W.c1.negQ points
  let m3 := maxDot W.c1 points
  let m4 := maxDot W.c2.negQ points
  let m5 := maxDot W.c2 points
  let width := m1 + m0
  let height := m3 + m2
  let depth := m5 + m4
  let center4 := W.mulVecQ ⟨-m0 + width/2, -m2 + height/2, -m4 + depth/2, 0⟩
  (⟨center4.x, center4.y, center4.z⟩, width, height, depth)

/-- Orthographic camera state (`VECameraOrtho`), restricted to the fields
the shadow system reads and writes. -/
structure CameraOrtho where
  transform : Mat4Q
  width : ℚ
  height : ℚ
  nearPlane : ℚ
  farPlane : ℚ
  nearPlaneFraction : ℚ
  farPlaneFraction : ℚ
deriving DecidableEq

/-- A freshly constructed `VECameraOrtho("ShadowCamDirOrtho")`.  The
default member values live in the class declaration header (not part of
the sources under verification); every field that the cascade claims speak
about is overwritten by `updateShadowCameras` before use, so zeros stand
in here. -/
def defaultOrthoCam : CameraOrtho :=
  ⟨⟨⟨1,0,0,0⟩, ⟨0,1,0,0⟩, ⟨0,0,1,0⟩, ⟨0,0,0,1⟩⟩, 0, 0, 0, 0, 0, 0⟩

/-- `VEDirectionalLight::VEDirectionalLight` (VEEntity.cpp:843-849)
pushes exactly 4 fresh orthographic shadow cameras. -/
def veDirectionalLightShadowCameras : List CameraOrtho :=
  List.replicate 4 defaultOrthoCam

/-- The cascade boundary list of `VEDirectionalLight::updateShadowCameras`
(VEEntity.cpp:862): `{ 0.0f, 0.05f, 0.15f, 0.50f, 1.0f }`. -/
def cascadeLimits : List ℚ := [0, 1/20, 3/20, 1/2, 1]

/-- `VEDirectionalLight::updateShadowCameras` (VEEntity.cpp:860-882).
`W` is the light's world transform (`getWorldTransform()`);
`frustumPoints t0 t1` stands for the viewer camera's virtual
`getFrustumPoints(points, limits[i], limits[i+1])`.  For each shadow
camera `i`: fit the OBB of the `i`-th frustum segment, inflate the far
plane by 5×, take over the light's transform, move the camera back along
the light's z axis by 0.9·farPlane, and record the cascade fractions. -/
def updateShadowCamerasDir (W : Mat4Q) (frustumPoints : ℚ → ℚ → List Vec4Q)
    (cams : List CameraOrtho) : List CameraOrtho :=
  (List.range cams.length).map (fun i =>
    let cam := cams.getD i defaultOrthoCam
    let pointsW := frustumPoints (cascadeLimits.getD i 0)
      (cascadeLimits.getD (i+1) 0)
    let obb := getOBB W pointsW 0 1
    let center := obb.1
    let farPlane := obb.2.2.2 * 5
    { cam with
        width := obb.2.1,
        height := obb.2.2.1,
        farPlane := farPlane,
        transform := W.setPosition
          ⟨center.x - farPlane*(9/10)*W.c2.x,
           center.y - farPlane*(9/10)*W.c2.y,
           center.z - farPlane*(9/10)*W.c2.z⟩,
        nearPlaneFraction := cascadeLimits.getD i 0,
        farPlaneFraction := cascadeLimits.getD (i+1) 0 })

/-- **C3.** A directional light owns exactly 4 shadow cameras — the
constructor creates 4 and `updateShadowCameras` preserves the count — and
after `updateShadowCameras` runs for any viewer camera and any light
transform, the `i`-th camera's (nearPlaneFraction, farPlaneFraction) pair
is `(limits[i], limits[i+1])` from `{0, 0.05, 0.15, 0.50, 1}`: the pairs
are contiguous, each is nonempty, and together they cover [0,1] with no
gaps or overlaps. -/
theorem directionalLight_cascades (W : Mat4Q)
    (frustumPoints : ℚ → ℚ → List Vec4Q) :
    veDirectionalLightShadowCameras.length = 4
    ∧ (∀ cams : List CameraOrtho,
        (updateShadowCamerasDir W frustumPoints cams).length = cams.length)
    ∧ ((updateShadowCamerasDir W frustumPoints
          veDirectionalLightShadowCameras).map
        (fun c => (c.nearPlaneFraction, c.farPlaneFraction)))
        = [(0, 1/20), (1/20, 3/20), (3/20, 1/2), (1/2, 1)]
    ∧ (0:ℚ) < 1/20 ∧ (1/20:ℚ) < 3/20 ∧ (3/20:ℚ) < 1/2 ∧ (1/2:ℚ) < 1 := by
  refine ⟨rfl, ?_, ?_, by norm_num, by norm_num, by norm_num, by norm_num⟩
  · intro cams
    simp [updateShadowCamerasDir]
  · simp only [updateShadowCamerasDir, veDirectionalLightShadowCameras,
      List.length_replicate]
    norm_num [List.range_succ, cascadeLimits]

--------------------------------------------------------------------------
-- §5  Frame recording order (VERendererForward::recordCmdBuffers)
--      and the active-light list (VESceneManager::switchOnLight)
--------------------------------------------------------------------------

/-- The render passes `recordCmdBuffers` begins: the shadow render pass
(`m_renderPassShadow`), the clearing light pass (`m_renderPassClear`) and
the load-not-clear light pass (`m_renderPassLoad`). -/
inductive RenderPassKind where
  | shadowPass
  | clearPass
  | loadPass
deriving DecidableEq

/-- One entry of a `VkClearValue` vector: the black color clear
`{0,0,0,1}` or the depth clear `{1.0, 0}`
(VERendererForward.cpp:351-361). -/
inductive ClearValue where
  | colorBlack
  | depthOne
deriving DecidableEq

/-- An active light as the scheduler sees it: an identity and its
shadow-camera count (4 for directional, 6 for point, 1 for spot lights). -/
structure LightM where
  ident : Nat
  shadowCamCount : Nat
deriving DecidableEq

/-- One render pass recorded into the command buffer. -/
structure Pass where
  lightIndex : Nat
  light : LightM
  renderPass : RenderPassKind
  clearValues : List ClearValue
  shadowCamIndex : Option Nat
deriving DecidableEq

/-- The light loop of `VERendererForward::recordCmdBuffers`
(VERendererForward.cpp:367-414), as the sequence of render passes it
records, with `i` the loop counter over the active-light list: for each
light, one shadow pass per shadow camera (shadow render pass, depth
cleared every time), then the light pass — `i == 0 ? m_renderPassClear :
m_renderPassLoad` — whose clear-value vector is `{color, depth}` for the
first light and empty afterwards (`clearValuesLight.clear()` at the end of
iteration 0). -/
def recordFrom (i : Nat) : List LightM → List Pass
  | [] => []
  | l :: rest =>
    ((List.range l.shadowCamCount).map (fun j =>
      (⟨i, l, RenderPassKind.shadowPass, [ClearValue.depthOne], some j⟩ : Pass)))
    ++ [(⟨i, l,
          (if i = 0 then RenderPassKind.clearPass else RenderPassKind.loadPass),
          (if i = 0 then [ClearValue.colorBlack, ClearValue.depthOne] else []),
          none⟩ : Pass)]
    ++ recordFrom (i+1) rest

/-- `VERendererForward::recordCmdBuffers` over the active-light list. -/
def recordCmdBuffers (lights : List LightM) : List Pass :=
  recordFrom 0 lights

theorem recordFrom_lightIndex_ge :
    ∀ (ls : List LightM) k, ∀ p ∈ recordFrom k ls, k ≤ p.lightIndex := by
  intro ls
  induction ls with
  | nil => intro k p hp; simp [recordFrom] at hp
  | cons a rest ih =>
    intro k p hp
    simp only [recordFrom, List.mem_append, List.mem_map, List.mem_range,
      List.mem_singleton] at hp
    rcases hp with (⟨j, _, rfl⟩ | rfl) | hp
    · exact le_refl k
    · exact le_refl k
    · exact le_trans (Nat.le_succ k) (ih (k+1) p hp)

/-- Decomposition of the recorded buffer around the round of the light at
position `i`: everything before has a smaller light index, everything
after a larger one. -/
theorem recordFrom_decompose :
    ∀ (ls : List LightM) (k i : Nat), i < ls.length →
      ∃ pre post,
        recordFrom k ls
          = pre
            ++ ((List.range (ls.getD i ⟨0,0⟩).shadowCamCount).map (fun j =>
                (⟨k+i, ls.getD i ⟨0,0⟩, RenderPassKind.shadowPass,
                  [ClearValue.depthOne], some j⟩ : Pass)))
            ++ [(⟨k+i, ls.getD i ⟨0,0⟩,
                (if k+i = 0 then RenderPassKind.clearPass
                  else RenderPassKind.loadPass),
                (if k+i = 0 then [ClearValue.colorBlack, ClearValue.depthOne]
                  else []),
                none⟩ : Pass)]
            ++ post
        ∧ (∀ p ∈ pre, p.lightIndex < k+i)
        ∧ (∀ p ∈ post, k+i < p.lightIndex) := by
  intro ls
  induction ls with
  | nil => intro k i hi; simp at hi
  | cons a rest ih =>
    intro k i hi
    cases i with
    | zero =>
      refine ⟨[], recordFrom (k+1) rest, ?_, ?_, ?_⟩
      · simp [recordFrom]
      · intro p hp; simp at hp
      · intro p hp
        have := recordFrom_lightIndex_ge rest (k+1) p hp
        omega
    | succ i0 =>
      have hi0 : i0 < rest.length := by simpa using hi
      obtain ⟨pre, post, heq, hpre, hpost⟩ := ih (k+1) i0 hi0
      refine ⟨((List.range a.shadowCamCount).map (fun j =>
          (⟨k, a, RenderPassKind.shadowPass, [ClearValue.depthOne],
            some j⟩ : Pass)))
        ++ [(⟨k, a,
            (if k = 0 then RenderPassKind.clearPass
              else RenderPassKind.loadPass),
            (if k = 0 then [ClearValue.colorBlack, ClearValue.depthOne]
              else []),
            none⟩ : Pass)]
        ++ pre, post, ?_, ?_, ?_⟩
      · have harith : k + 1 + i0 = k + (i0 + 1) := by omega
        simp only [recordFrom, List.getD_cons_succ]
        rw [heq, harith]
        simp [List.append_assoc]
      · intro p hp
        simp only [List.mem_append, List.mem_map, List.mem_range,
          List.mem_singleton] at hp
        rcases hp with (⟨j, _, rfl⟩ | rfl) | hp
        · dsimp only; omega
        · dsimp only; omega
        · have := hpre p hp; omega
      · intro p hp
        have := hpost p hp; omega

/-- **C4.** In every command buffer produced by `recordCmdBuffers`, for
the light at any position `i` of the active-light list: all of that
light's shadow passes (one per shadow camera, each on the shadow render
pass with a depth clear) are recorded, consecutively, immediately before
that light's light-accumulation pass; the light pass uses the clearing
render pass (and the color+depth clear values) exactly for the first
light `i = 0` and the load-not-clear render pass (with no clear values)
for every later light; and no other pass in the buffer belongs to that
light index. -/
theorem recordCmdBuffers_rounds (lights : List LightM) (i : Nat)
    (hi : i < lights.length) :
    ∃ pre post,
      recordCmdBuffers lights
        = pre
          ++ ((List.range (lights.getD i ⟨0,0⟩).shadowCamCount).map (fun j =>
              (⟨i, lights.getD i ⟨0,0⟩, RenderPassKind.shadowPass,
                [ClearValue.depthOne], some j⟩ : Pass)))
          ++ [(⟨i, lights.getD i ⟨0,0⟩,
              (if i = 0 then RenderPassKind.clearPass
                else RenderPassKind.loadPass),
              (if i = 0 then [ClearValue.colorBlack, ClearValue.depthOne]
                else []),
              none⟩ : Pass)]
          ++ post
      ∧ (∀ p ∈ pre, p.lightIndex ≠ i)
      ∧ (∀ p ∈ post, p.lightIndex ≠ i) := by
  obtain ⟨pre, post, heq, hpre, hpost⟩ :=
    recordFrom_decompose lights 0 i hi
  refine ⟨pre, post, ?_, ?_, ?_⟩
  · simpa using heq
  · intro p hp
    have := hpre p hp
    omega
  · intro p hp
    have := hpost p hp
    omega

theorem recordCmdBuffers_rounds_witness :
    ∃ pre post,
      recordCmdBuffers [⟨7, 4⟩, ⟨9, 6⟩]
        = pre
          ++ ((List.range (([⟨7, 4⟩, ⟨9, 6⟩] : List LightM).getD 1 ⟨0,0⟩).shadowCamCount).map (fun j =>
              (⟨1, ([⟨7, 4⟩, ⟨9, 6⟩] : List LightM).getD 1 ⟨0,0⟩,
                RenderPassKind.shadowPass,
                [ClearValue.depthOne], some j⟩ : Pass)))
          ++ [(⟨1, ([⟨7, 4⟩, ⟨9, 6⟩] : List LightM).getD 1 ⟨0,0⟩,
              (if 1 = 0 then RenderPassKind.clearPass
                else RenderPassKind.loadPass),
              (if 1 = 0 then [ClearValue.colorBlack, ClearValue.depthOne]
                else []),
              none⟩ : Pass)]
          ++ post
      ∧ (∀ p ∈ pre, p.lightIndex ≠ 1)
      ∧ (∀ p ∈ post, p.lightIndex ≠ 1) :=
  recordCmdBuffers_rounds [⟨7, 4⟩, ⟨9, 6⟩] 1 (by decide)

/-- `VESceneManager::switchOnLight` (VESceneManager.cpp:735-737):
an unconditional `m_lights.push_back(light)`. -/
def switchOnLight (lights : List LightM) (light : LightM) : List LightM :=
  lights ++ [light]

theorem recordFrom_count_light (l : LightM) :
    ∀ (ls : List LightM) (k : Nat),
      ((recordFrom k ls).filter (fun p => p.light == l)).length
        = ls.count l * (l.shadowCamCount + 1) := by
  intro ls
  induction ls with
  | nil => intro k; simp [recordFrom]
  | cons a rest ih =>
    intro k
    simp only [recordFrom, List.filter_append, List.length_append]
    rw [ih (k+1)]
    by_cases ha : a = l
    · subst ha
      have h1 : ((List.range a.shadowCamCount).map (fun j =>
          (⟨k, a, RenderPassKind.shadowPass, [ClearValue.depthOne],
            some j⟩ : Pass))).filter (fun p => p.light == a)
          = (List.range a.shadowCamCount).map (fun j =>
          (⟨k, a, RenderPassKind.shadowPass, [ClearValue.depthOne],
            some j⟩ : Pass)) := by
        rw [List.filter_eq_self]
        intro p hp
        simp only [List.mem_map, List.mem_range] at hp
        obtain ⟨j, _, rfl⟩ := hp
        simp
      rw [h1]
      simp [List.count_cons, Nat.add_mul, Nat.mul_comm]
      ring
    · have hbeq : (a == l) = false := by
        simp [ha]
      have h1 : ((List.range a.shadowCamCount).map (fun j =>
          (⟨k, a, RenderPassKind.shadowPass, [ClearValue.depthOne],
            some j⟩ : Pass))).filter (fun p => p.light == l) = [] := by
        rw [List.filter_eq_nil_iff]
        intro p hp
        simp only [List.mem_map, List.mem_range] at hp
        obtain ⟨j, _, rfl⟩ := hp
        simp [ha]
      rw [h1]
      simp [List.count_cons, ha, hbeq]

/-- **C10.** `switchOnLight` appends with no membership check: each call
adds one more entry for the light, so two calls with the same light leave
two entries (switching on is not idempotent), and the recorded frame then
contains that light's shadow-pass/light-pass round once per entry — a
doubly-added light gets two full rounds. -/
theorem switchOnLight_not_idempotent (ls : List LightM) (l : LightM) :
    (switchOnLight ls l).count l = ls.count l + 1
    ∧ (switchOnLight (switchOnLight ls l) l).count l = ls.count l + 2
    ∧ ((recordCmdBuffers (switchOnLight (switchOnLight ls l) l)).filter
        (fun p => p.light == l)).length
      = (ls.count l + 2) * (l.shadowCamCount + 1) := by
  refine ⟨?_, ?_, ?_⟩
  · simp [switchOnLight]
  · simp [switchOnLight]
  · rw [recordCmdBuffers, recordFrom_count_light l]
    simp [switchOnLight]

--------------------------------------------------------------------------
-- §6  Swapchain staleness handling (drawFrame / presentFrame)
--------------------------------------------------------------------------

/-- `VK_SUCCESS` (vulkan_core.h). -/
def VK_SUCCESS : Int := 0

/-- `VK_SUBOPTIMAL_KHR` (vulkan_core.h). -/
def VK_SUBOPTIMAL_KHR : Int := 1000001003

/-- `VK_ERROR_OUT_OF_DATE_KHR` (vulkan_core.h). -/
def VK_ERROR_OUT_OF_DATE_KHR : Int := -1000001004

/-- The observable actions of one `drawFrame`/`presentFrame` cycle. -/
inductive FrameStep where
  | waitForFences
  | acquireImage
  | recreateSwapchain
  | fatalStop
  | recordBuffers
  | submitBuffers
  | transitionLayout
  | presentImage
deriving DecidableEq

/-- Modelled from the spec: `VEEngine::fatalError` is only declared in the
sources under verification (VEEngine.h:93, "Show an error message and
close down the engine"); its body (VEEngine.cpp) is missing.  Per the
spec's error taxonomy — fatal frame-submission failures "halt the render
loop" and "unwind to a top-level handler … before terminating" — it does
not return, so a recorded trace ends at this step. -/
def fatalSteps : List FrameStep := [FrameStep.fatalStop]

/-- `VERendererForward::drawFrame` (VERendererForward.cpp:430-454) as the
sequence of actions it performs, as a function of the
`vkAcquireNextImageKHR` result and of whether a command buffer is already
cached for the acquired image: wait on the in-flight fence, acquire; on
`VK_ERROR_OUT_OF_DATE_KHR` recreate the swapchain and return; on any other
result that is neither success nor suboptimal, fatal error; otherwise
record the command buffer if none is cached, then submit it. -/
def drawFrameSteps (acquireResult : Int) (cmdBufferCached : Bool) :
    List FrameStep :=
  [FrameStep.waitForFences, FrameStep.acquireImage]
  ++ (if acquireResult = VK_ERROR_OUT_OF_DATE_KHR then
        [FrameStep.recreateSwapchain]
      else if acquireResult ≠ VK_SUCCESS ∧ acquireResult ≠ VK_SUBOPTIMAL_KHR then
        fatalSteps
      else
        (if cmdBufferCached then [] else [FrameStep.recordBuffers])
        ++ [FrameStep.submitBuffers])

/-- `VERendererForward::presentFrame` (VERendererForward.cpp:479-497):
transition the image layout, present; on out-of-date, suboptimal or a
pending `m_framebufferResized` flag, recreate the swapchain; on any other
non-success result, fatal error. -/
def presentFrameSteps (presentResult : Int) (framebufferResized : Bool) :
    List FrameStep :=
  [FrameStep.transitionLayout, FrameStep.presentImage]
  ++ (if presentResult = VK_ERROR_OUT_OF_DATE_KHR
        ∨ presentResult = VK_SUBOPTIMAL_KHR ∨ framebufferResized = true then
        [FrameStep.recreateSwapchain]
      else if presentResult ≠ VK_SUCCESS then
        fatalSteps
      else [])

/-- **C9.** An out-of-date acquire result makes `drawFrame` recreate the
swapchain and return with no recording, no submission and no error (a
skipped frame); any other acquire result that is neither success nor
suboptimal is fatal.  `presentFrame` recreates the swapchain on
out-of-date, suboptimal or a pending resize flag, and any other
non-success present result is fatal. -/
theorem frame_staleness_handling (r : Int) (c b : Bool) :
    (drawFrameSteps VK_ERROR_OUT_OF_DATE_KHR c
        = [FrameStep.waitForFences, FrameStep.acquireImage,
            FrameStep.recreateSwapchain]
      ∧ FrameStep.recordBuffers ∉ drawFrameSteps VK_ERROR_OUT_OF_DATE_KHR c
      ∧ FrameStep.submitBuffers ∉ drawFrameSteps VK_ERROR_OUT_OF_DATE_KHR c
      ∧ FrameStep.fatalStop ∉ drawFrameSteps VK_ERROR_OUT_OF_DATE_KHR c)
    ∧ (r ≠ VK_SUCCESS → r ≠ VK_SUBOPTIMAL_KHR → r ≠ VK_ERROR_OUT_OF_DATE_KHR →
        drawFrameSteps r c
          = [FrameStep.waitForFences, FrameStep.acquireImage,
              FrameStep.fatalStop])
    ∧ ((r = VK_ERROR_OUT_OF_DATE_KHR ∨ r = VK_SUBOPTIMAL_KHR ∨ b = true) →
        presentFrameSteps r b
          = [FrameStep.transitionLayout, FrameStep.presentImage,
              FrameStep.recreateSwapchain])
    ∧ (r ≠ VK_SUCCESS → r ≠ VK_ERROR_OUT_OF_DATE_KHR → r ≠ VK_SUBOPTIMAL_KHR →
        b = false →
        presentFrameSteps r b
          = [FrameStep.transitionLayout, FrameStep.presentImage,
              FrameStep.fatalStop]) := by
  refine ⟨⟨?_, ?_, ?_, ?_⟩, ?_, ?_, ?_⟩
  · simp [drawFrameSteps]
  · simp [drawFrameSteps]
  · simp [drawFrameSteps]
  · simp [drawFrameSteps, fatalSteps]
  · intro h1 h2 h3
    simp [drawFrameSteps, fatalSteps, h1, h2, h3]
  · intro h
    simp [presentFrameSteps, h]
  · intro h1 h2 h3 hb
    subst hb
    simp [presentFrameSteps, fatalSteps, h1, h2, h3]

theorem frame_staleness_handling_witness :
    (drawFrameSteps VK_ERROR_OUT_OF_DATE_KHR true
        = [FrameStep.waitForFences, FrameStep.acquireImage,
            FrameStep.recreateSwapchain]
      ∧ FrameStep.recordBuffers ∉ drawFrameSteps VK_ERROR_OUT_OF_DATE_KHR true
      ∧ FrameStep.submitBuffers ∉ drawFrameSteps VK_ERROR_OUT_OF_DATE_KHR true
      ∧ FrameStep.fatalStop ∉ drawFrameSteps VK_ERROR_OUT_OF_DATE_KHR true)
    ∧ ((5:Int) ≠ VK_SUCCESS → (5:Int) ≠ VK_SUBOPTIMAL_KHR →
        (5:Int) ≠ VK_ERROR_OUT_OF_DATE_KHR →
        drawFrameSteps 5 true
          = [FrameStep.waitForFences, FrameStep.acquireImage,
              FrameStep.fatalStop])
    ∧ (((5:Int) = VK_ERROR_OUT_OF_DATE_KHR ∨ (5:Int) = VK_SUBOPTIMAL_KHR
          ∨ false = true) →
        presentFrameSteps 5 false
          = [FrameStep.transitionLayout, FrameStep.presentImage,
              FrameStep.recreateSwapchain])
    ∧ ((5:Int) ≠ VK_SUCCESS → (5:Int) ≠ VK_ERROR_OUT_OF_DATE_KHR →
        (5:Int) ≠ VK_SUBOPTIMAL_KHR → false = false →
        presentFrameSteps 5 false
          = [FrameStep.transitionLayout, FrameStep.presentImage,
              FrameStep.fatalStop]) :=
  frame_staleness_handling 5 true false

--------------------------------------------------------------------------
-- §7  Projective depth range (VECameraProjective::getProjectionMatrix)
--------------------------------------------------------------------------

/-- `glm::perspectiveFov` in the right-handed, zero-to-one-depth
configuration selected by `GLM_FORCE_DEPTH_ZERO_TO_ONE` (VHHelper.h:28):
`h = cos(fov/2)/sin(fov/2)`, `w = h·height/width`, diagonal `(w, h)`,
`m[2][2] = zFar/(zNear-zFar)`, `m[2][3] = -1`,
`m[3][2] = -(zFar·zNear)/(zFar-zNear)`, all other entries zero.  The
cotangent of the half field-of-view is transcendental, so it is passed in
symbolically as `cotHalfFov`; the depth claims do not depend on it. -/
def glmPerspectiveFov (cotHalfFov width height zNear zFar : ℚ) : Mat4Q :=
  { c0 := ⟨cotHalfFov * height / width, 0, 0, 0⟩,
    c1 := ⟨0, cotHalfFov, 0, 0⟩,
    c2 := ⟨0, 0, zFar / (zNear - zFar), -1⟩,
    c3 := ⟨0, 0, -(zFar * zNear) / (zFar - zNear), 0⟩ }

/-- `VECameraProjective::getProjectionMatrix(width, height)`
(VEEntity.cpp:611-618): glm's matrix with the `[1][1]`, `[2][2]` and
`[2][3]` entries negated, because the engine's camera looks down its
positive z axis. -/
def getProjectionMatrixProj (cotHalfFov width height nearPlane farPlane : ℚ) :
    Mat4Q :=
  let pm := glmPerspectiveFov cotHalfFov width height nearPlane farPlane
  { pm with
      c1 := { pm.c1 with y := -pm.c1.y },
      c2 := { pm.c2 with z := -pm.c2.z, w := -pm.c2.w } }

/-- Normalized device depth of a camera-space point: the z component of
the clip-space vector divided by its w component. -/
def ndcDepth (m : Mat4Q) (v : Vec4Q) : ℚ :=
  (m.mulVecQ v).z / (m.mulVecQ v).w

/-- **C7.** For the projective camera with nearPlane 0.1, farPlane 500 and
aspect ratio 16/9 (the zero-argument `getProjectionMatrix()` calls the
two-argument one with `(m_aspectRatio, 1.0)`), and any vertical field of
view (entering only through the cotangent of its half-angle), the center
of the near plane `(0,0,0.1)` maps to normalized device depth 0 and the
center of the far plane `(0,0,500)` maps to normalized device depth 1 —
exactly, in this rational model. -/
theorem projective_depth_range (cotHalfFov : ℚ) :
    ndcDepth (getProjectionMatrixProj cotHalfFov (16/9) 1 (1/10) 500)
        ⟨0, 0, 1/10, 1⟩ = 0
    ∧ ndcDepth (getProjectionMatrixProj cotHalfFov (16/9) 1 (1/10) 500)
        ⟨0, 0, 500, 1⟩ = 1 := by
  constructor <;>
    norm_num [ndcDepth, getProjectionMatrixProj, glmPerspectiveFov,
      Mat4Q.mulVecQ]

--------------------------------------------------------------------------
-- §8  lookAt (VESceneNode::lookAt) over exact reals, NaN as Option.none
--------------------------------------------------------------------------

/-- 3-component real vector (`glm::vec3` over exact reals). -/
structure RVec3 where
  x : ℝ
  y : ℝ
  z : ℝ

def RVec3.sub (a b : RVec3) : RVec3 := ⟨a.x - b.x, a.y - b.y, a.z - b.z⟩

def RVec3.addV (a b : RVec3) : RVec3 := ⟨a.x + b.x, a.y + b.y, a.z + b.z⟩

def RVec3.smulR (c : ℝ) (a : RVec3) : RVec3 := ⟨c * a.x, c * a.y, c * a.z⟩

/-- `glm::dot`. -/
def RVec3.dotR (a b : RVec3) : ℝ := a.x*b.x + a.y*b.y + a.z*b.z

/-- `glm::cross`. -/
def RVec3.crossR (a b : RVec3) : RVec3 :=
  ⟨a.y*b.z - a.z*b.y, a.z*b.x - a.x*b.z, a.x*b.y - a.y*b.x⟩

/-- `v / length(v)` as a total function (meaningless at `v = 0`). -/
noncomputable def unitDir (v : RVec3) : RVec3 :=
  RVec3.smulR (Real.sqrt (RVec3.dotR v v))⁻¹ v

/-- `glm::normalize` over the reals with explicit NaN: in floats,
normalizing the zero vector divides 0 by 0 and fills the result with NaN,
modelled as `none`; on a nonzero vector the result is `v / ‖v‖`. -/
noncomputable def normalizeR (v : RVec3) : Option RVec3 :=
  if RVec3.dotR v v = 0 then none else some (unitDir v)

/-- `VESceneNode::lookAt(eye, point, up)` (VEEntity.cpp:129-145), returning
the columns `(x, y, z, position)` the function writes into `m_transform`,
or `none` when a NaN reaches the matrix: `z = normalize(point - eye)`,
`up = normalize(up)`, `corr = dot(z, up)`; if `|1 - |corr|| < 0.00001` the
up vector is replaced by `normalize((sc,sc,sc))` with
`sc = z.x + z.y + z.z`; then `x = normalize(cross(up, z))` and
`y = normalize(cross(z, x))`.  A `none` anywhere poisons the whole matrix,
exactly as a float NaN propagates through the remaining cross products and
normalizations. -/
noncomputable def veLookAt (eye point up0 : RVec3) :
    Option (RVec3 × RVec3 × RVec3 × RVec3) :=
  (normalizeR (RVec3.sub point eye)).bind (fun z =>
  (normalizeR up0).bind (fun u =>
  (if abs (1 - abs (RVec3.dotR z u)) < 1/100000 then
      normalizeR ⟨z.x + z.y + z.z, z.x + z.y + z.z, z.x + z.y + z.z⟩
    else some u).bind (fun u2 =>
  (normalizeR (RVec3.crossR u2 z)).bind (fun x =>
  (normalizeR (RVec3.crossR z x)).map (fun y => (x, y, z, eye))))))

theorem normalizeR_of_ne {v : RVec3} (h : RVec3.dotR v v ≠ 0) :
    normalizeR v = some (unitDir v) := by
  unfold normalizeR
  rw [if_neg h]

theorem dotR_self_nonneg (v : RVec3) : 0 ≤ RVec3.dotR v v := by
  cases v with
  | mk a b c =>
    simp only [RVec3.dotR]
    nlinarith [sq_nonneg a, sq_nonneg b, sq_nonneg c]

theorem dotR_self_eq_zero {v : RVec3} (h : RVec3.dotR v v = 0) :
    v = ⟨0, 0, 0⟩ := by
  cases v with
  | mk a b c =>
    simp only [RVec3.dotR] at h
    have ha : a = 0 := by nlinarith [sq_nonneg a, sq_nonneg b, sq_nonneg c]
    have hb : b = 0 := by nlinarith [sq_nonneg a, sq_nonneg b, sq_nonneg c]
    have hc : c = 0 := by nlinarith [sq_nonneg a, sq_nonneg b, sq_nonneg c]
    simp [ha, hb, hc]

theorem dotR_unitDir_self {v : RVec3} (h : RVec3.dotR v v ≠ 0) :
    RVec3.dotR (unitDir v) (unitDir v) = 1 := by
  have hnn := dotR_self_nonneg v
  cases v with
  | mk a b c =>
    simp only [unitDir, RVec3.smulR, RVec3.dotR] at h hnn ⊢
    have hsq : Real.sqrt (a*a + b*b + c*c) * Real.sqrt (a*a + b*b + c*c)
        = a*a + b*b + c*c := Real.mul_self_sqrt hnn
    have hs : Real.sqrt (a*a + b*b + c*c) ≠ 0 := by
      intro h0
      rw [h0, mul_zero] at hsq
      exact h hsq.symm
    field_simp

theorem unitDir_of_unit {v : RVec3} (h : RVec3.dotR v v = 1) :
    unitDir v = v := by
  cases v with
  | mk a b c =>
    simp only [unitDir, RVec3.smulR, RVec3.dotR] at h ⊢
    rw [h, Real.sqrt_one, inv_one]
    simp

/-- Lagrange's identity for the 3-dimensional cross product. -/
theorem dotR_crossR_self (a b : RVec3) :
    RVec3.dotR (RVec3.crossR a b) (RVec3.crossR a b)
      = RVec3.dotR a a * RVec3.dotR b b - (RVec3.dotR a b) ^ 2 := by
  cases a with
  | mk a1 a2 a3 =>
    cases b with
    | mk b1 b2 b3 =>
      simp only [RVec3.dotR, RVec3.crossR]
      ring

/-- The scalar triple product of `b` with `a × b` vanishes. -/
theorem dotR_crossR_right (a b : RVec3) :
    RVec3.dotR b (RVec3.crossR a b) = 0 := by
  cases a with
  | mk a1 a2 a3 =>
    cases b with
    | mk b1 b2 b3 =>
      simp only [RVec3.dotR, RVec3.crossR]
      ring

theorem dotR_smulR_right (c : ℝ) (a b : RVec3) :
    RVec3.dotR a (RVec3.smulR c b) = c * RVec3.dotR a b := by
  cases a with
  | mk a1 a2 a3 =>
    cases b with
    | mk b1 b2 b3 =>
      simp only [RVec3.dotR, RVec3.smulR]
      ring

theorem dotR_comm (a b : RVec3) : RVec3.dotR a b = RVec3.dotR b a := by
  cases a with
  | mk a1 a2 a3 =>
    cases b with
    | mk b1 b2 b3 =>
      simp only [RVec3.dotR]
      ring

/-- The correlation `corr = dot(z, up)` that `lookAt` computes after
normalizing both inputs. -/
noncomputable def lookAtCorr (eye point up0 : RVec3) : ℝ :=
  RVec3.dotR (unitDir (RVec3.sub point eye)) (unitDir up0)

/-- **C8 counterexample.** `lookAt((0,0,0), (1,-1,0), (1,-1,0))` has `eye ≠
point` and a nonzero up vector, lands in the degenerate branch
(`corr = 1`), and there the perturbed up vector is built from the view
direction's component sum `sc = 1/√2 - 1/√2 + 0 = 0` — so the code
normalizes the zero vector and the transform is poisoned with NaN,
refuting the claim that the degenerate handling avoids NaN for all such
inputs. -/
theorem lookAt_nan_on_degenerate_input :
    ((⟨1,-1,0⟩ : RVec3) ≠ (⟨0,0,0⟩ : RVec3))
    ∧ ((⟨1,-1,0⟩ : RVec3) ≠ (⟨0,0,0⟩ : RVec3))
    ∧ veLookAt ⟨0,0,0⟩ ⟨1,-1,0⟩ ⟨1,-1,0⟩ = none := by
  have hne : ((⟨1,-1,0⟩ : RVec3) ≠ (⟨0,0,0⟩ : RVec3)) := by
    intro h
    have := congrArg RVec3.x h
    norm_num at this
  refine ⟨hne, hne, ?_⟩
  have hsub : RVec3.sub ⟨1,-1,0⟩ ⟨0,0,0⟩ = ⟨1,-1,0⟩ := by
    simp [RVec3.sub]
  have hdot : RVec3.dotR ⟨1,-1,0⟩ ⟨1,-1,0⟩ = 2 := by
    norm_num [RVec3.dotR]
  have hdne : RVec3.dotR (⟨1,-1,0⟩ : RVec3) ⟨1,-1,0⟩ ≠ 0 := by
    rw [hdot]; norm_num
  have hs2 : Real.sqrt 2 * Real.sqrt 2 = 2 :=
    Real.mul_self_sqrt (by norm_num)
  have hs2ne : Real.sqrt 2 ≠ 0 := by
    intro h0
    rw [h0, mul_zero] at hs2
    norm_num at hs2
  have huD : unitDir ⟨1,-1,0⟩
      = ⟨(Real.sqrt 2)⁻¹ * 1, (Real.sqrt 2)⁻¹ * (-1), (Real.sqrt 2)⁻¹ * 0⟩ := by
    simp only [unitDir, RVec3.smulR, hdot]
  have hcorr : RVec3.dotR
      (⟨(Real.sqrt 2)⁻¹ * 1, (Real.sqrt 2)⁻¹ * (-1), (Real.sqrt 2)⁻¹ * 0⟩ : RVec3)
      (⟨(Real.sqrt 2)⁻¹ * 1, (Real.sqrt 2)⁻¹ * (-1), (Real.sqrt 2)⁻¹ * 0⟩ : RVec3)
      = 1 := by
    have hinv : (Real.sqrt 2)⁻¹ * (Real.sqrt 2)⁻¹ = 2⁻¹ := by
      rw [← mul_inv, hs2]
    simp only [RVec3.dotR]
    nlinarith [hinv]
  unfold veLookAt
  rw [hsub, normalizeR_of_ne hdne, huD]
  simp only [Option.some_bind]
  rw [hcorr]
  rw [if_pos (by norm_num)]
  have hsc : (Real.sqrt 2)⁻¹ * 1 + (Real.sqrt 2)⁻¹ * (-1) + (Real.sqrt 2)⁻¹ * 0
      = 0 := by ring
  rw [hsc]
  have hz : normalizeR (⟨0, 0, 0⟩ : RVec3) = none := by
    unfold normalizeR
    rw [if_pos (by norm_num [RVec3.dotR])]
  rw [hz]
  simp

/-- **C8 (amended).** For every call `lookAt(eye, point, up)` with `eye`
distinct from `point` and `up` nonzero **that does not take the degenerate
branch** (the view direction is not nearly parallel to up, i.e.
`|1 - |corr|| ≥ 0.00001`), the resulting transform contains no NaN.  In
the degenerate branch itself NaN is possible, because the replacement up
vector `(sc,sc,sc)` built from the view direction's component sum can be
zero or parallel to the view direction (see
`lookAt_nan_on_degenerate_input`). -/
theorem lookAt_no_nan_nondegenerate (eye point up0 : RVec3)
    (hep : point ≠ eye) (hup : up0 ≠ (⟨0,0,0⟩ : RVec3))
    (hnd : ¬ abs (1 - abs (lookAtCorr eye point up0)) < 1/100000) :
    ∃ m, veLookAt eye point up0 = some m := by
  have hv : RVec3.sub point eye ≠ (⟨0,0,0⟩ : RVec3) := by
    intro h
    apply hep
    cases point with
    | mk p1 p2 p3 =>
      cases eye with
      | mk e1 e2 e3 =>
        simp only [RVec3.sub, RVec3.mk.injEq] at h ⊢
        refine ⟨by linarith [h.1], by linarith [h.2.1], by linarith [h.2.2]⟩
  have hdv : RVec3.dotR (RVec3.sub point eye) (RVec3.sub point eye) ≠ 0 :=
    fun h => hv (dotR_self_eq_zero h)
  have hdu : RVec3.dotR up0 up0 ≠ 0 :=
    fun h => hup (dotR_self_eq_zero h)
  have hz1 : RVec3.dotR (unitDir (RVec3.sub point eye))
      (unitDir (RVec3.sub point eye)) = 1 := dotR_unitDir_self hdv
  have hu1 : RVec3.dotR (unitDir up0) (unitDir up0) = 1 :=
    dotR_unitDir_self hdu
  have habs : abs (lookAtCorr eye point up0) ≠ 1 := by
    intro h1
    apply hnd
    rw [h1]
    norm_num
  have hcross : RVec3.dotR
      (RVec3.crossR (unitDir up0) (unitDir (RVec3.sub point eye)))
      (RVec3.crossR (unitDir up0) (unitDir (RVec3.sub point eye)))
      = 1 - (lookAtCorr eye point up0) ^ 2 := by
    rw [dotR_crossR_self, hu1, hz1, one_mul, lookAtCorr,
      dotR_comm (unitDir (RVec3.sub point eye)) (unitDir up0)]
  have hcrossgt : 0 < 1 - (lookAtCorr eye point up0) ^ 2 := by
    have hge : 0 ≤ 1 - (lookAtCorr eye point up0) ^ 2 := by
      rw [← hcross]
      exact dotR_self_nonneg _
    rcases lt_or_eq_of_le hge with h | h
    · exact h
    · exfalso
      apply habs
      have hsq1 : (lookAtCorr eye point up0) ^ 2 = 1 := by linarith
      have h3 : (abs (lookAtCorr eye point up0) - 1)
          * (abs (lookAtCorr eye point up0) + 1) = 0 := by
        nlinarith [sq_abs (lookAtCorr eye point up0)]
      rcases mul_eq_zero.mp h3 with h4 | h4
      · linarith
      · linarith [abs_nonneg (lookAtCorr eye point up0)]
  have hcrossne : RVec3.dotR
      (RVec3.crossR (unitDir up0) (unitDir (RVec3.sub point eye)))
      (RVec3.crossR (unitDir up0) (unitDir (RVec3.sub point eye))) ≠ 0 := by
    rw [hcross]
    linarith
  unfold veLookAt
  rw [normalizeR_of_ne hdv]
  simp only [Option.some_bind]
  rw [normalizeR_of_ne hdu]
  simp only [Option.some_bind]
  rw [if_neg (by
    rw [show RVec3.dotR (unitDir (RVec3.sub point eye)) (unitDir up0)
        = lookAtCorr eye point up0 from rfl]
    exact hnd)]
  simp only [Option.some_bind]
  rw [normalizeR_of_ne hcrossne]
  simp only [Option.some_bind]
  set z := unitDir (RVec3.sub point eye) with hzdef
  set w := RVec3.crossR (unitDir up0) z with hwdef
  have hx1 : RVec3.dotR (unitDir w) (unitDir w) = 1 :=
    dotR_unitDir_self hcrossne
  have hzx : RVec3.dotR z (unitDir w) = 0 := by
    rw [unitDir, dotR_smulR_right, hwdef, dotR_crossR_right, mul_zero]
  have hfinal : RVec3.dotR (RVec3.crossR z (unitDir w))
      (RVec3.crossR z (unitDir w)) ≠ 0 := by
    rw [dotR_crossR_self, hz1, hx1, hzx]
    norm_num
  rw [normalizeR_of_ne hfinal]
  simp [Option.map]

theorem lookAt_no_nan_nondegenerate_witness :
    ((⟨0,0,1⟩ : RVec3) ≠ (⟨0,0,0⟩ : RVec3))
    ∧ ((⟨0,1,0⟩ : RVec3) ≠ (⟨0,0,0⟩ : RVec3))
    ∧ (¬ abs (1 - abs (lookAtCorr ⟨0,0,0⟩ ⟨0,0,1⟩ ⟨0,1,0⟩)) < 1/100000)
    ∧ ∃ m, veLookAt ⟨0,0,0⟩ ⟨0,0,1⟩ ⟨0,1,0⟩ = some m := by
  have h1 : ((⟨0,0,1⟩ : RVec3) ≠ (⟨0,0,0⟩ : RVec3)) := by
    intro h
    have := congrArg RVec3.z h
    norm_num at this
  have h2 : ((⟨0,1,0⟩ : RVec3) ≠ (⟨0,0,0⟩ : RVec3)) := by
    intro h
    have := congrArg RVec3.y h
    norm_num at this
  have hcorr : lookAtCorr ⟨0,0,0⟩ ⟨0,0,1⟩ ⟨0,1,0⟩ = 0 := by
    unfold lookAtCorr unitDir
    norm_num [RVec3.sub, RVec3.dotR, RVec3.smulR, Real.sqrt_one]
  have h3 : ¬ abs (1 - abs (lookAtCorr ⟨0,0,0⟩ ⟨0,0,1⟩ ⟨0,1,0⟩)) < 1/100000 := by
    rw [hcorr]
    norm_num
  exact ⟨h1, h2, h3, lookAt_no_nan_nondegenerate ⟨0,0,0⟩ ⟨0,0,1⟩ ⟨0,1,0⟩ h1 h2 h3⟩

--------------------------------------------------------------------------
-- §9  Point light shadow cameras (VEPointLight::updateShadowCameras)
--------------------------------------------------------------------------

/-- Projective camera state (`VECameraProjective`), restricted to the
fields the point-light shadow system writes: `aspect` is `m_aspectRatio`,
`fov` the vertical field-of-view in degrees, and `transform` holds the
basis columns and position that `lookAt` writes (`none` = NaN). -/
structure CameraProj where
  transform : Option (RVec3 × RVec3 × RVec3 × RVec3)
  aspect : ℝ
  fov : ℝ
  nearPlane : ℝ
  farPlane : ℝ
  nearPlaneFraction : ℝ
  farPlaneFraction : ℝ

/-- A freshly constructed `VECameraProjective("ShadowCamPointProj")`.  The
default member values live in the class declaration header (not part of
the sources under verification); every field below is overwritten by
`updateShadowCameras` before use, so zeros and an identity basis stand
in. -/
def defaultProjCam : CameraProj :=
  ⟨some (⟨1,0,0⟩, ⟨0,1,0⟩, ⟨0,0,1⟩, ⟨0,0,0⟩), 0, 0, 0, 0, 0, 0⟩

/-- `VEPointLight::VEPointLight` (VEEntity.cpp:894-900) pushes exactly 6
fresh projective shadow cameras. -/
def vePointLightShadowCameras : List CameraProj :=
  List.replicate 6 defaultProjCam

/-- The per-face view-direction table of
`VEPointLight::updateShadowCameras` (VEEntity.cpp:930-938). -/
def pointShadowZAxis : List RVec3 :=
  [⟨1,0,0⟩, ⟨-1,0,0⟩, ⟨0,1,0⟩, ⟨0,-1,0⟩, ⟨0,0,1⟩, ⟨0,0,-1⟩]

/-- The per-face up-vector table of `VEPointLight::updateShadowCameras`
(VEEntity.cpp:939-947). -/
def pointShadowUp : List RVec3 :=
  [⟨0,1,0⟩, ⟨0,1,0⟩, ⟨0,0,-1⟩, ⟨0,0,1⟩, ⟨0,1,0⟩, ⟨0,1,0⟩]

/-- `VEPointLight::updateShadowCameras` (VEEntity.cpp:912-951): `pos` is
the xyz of column 3 of the light's `getWorldTransform()`, `param0` the
light's reach `m_param[0]`.  For every shadow camera: aspect ratio 1,
`m_fov = 91.0f` (the comment says "a sector has always 90 deg fov" but the
code stores 91), near plane `lnear = 0.1`, far plane `lnear + llength`,
fractions 0 and 1 (no cascades), and `lookAt(pos, pos + zaxis[i], up[i])`. -/
noncomputable def updateShadowCamerasPoint (pos : RVec3) (param0 : ℝ)
    (cams : List CameraProj) : List CameraProj :=
  (List.range cams.length).map (fun i =>
    let cam := cams.getD i defaultProjCam
    { cam with
        aspect := 1,
        fov := 91,
        nearPlane := 1/10,
        farPlane := 1/10 + param0,
        nearPlaneFraction := 0,
        farPlaneFraction := 1,
        transform := veLookAt pos
          (RVec3.addV pos (pointShadowZAxis.getD i ⟨0,0,0⟩))
          (pointShadowUp.getD i ⟨0,0,0⟩) })

/-- `lookAt` on an exactly-unit view direction with an exactly-orthogonal
unit up vector: the non-degenerate branch is taken and the resulting
columns are the unit cross products. -/
theorem veLookAt_unit_axes (pos z u x y : RVec3)
    (hz : RVec3.dotR z z = 1) (hu : RVec3.dotR u u = 1)
    (hzu : RVec3.dotR z u = 0)
    (hx : RVec3.crossR u z = x) (hxx : RVec3.dotR x x = 1)
    (hy : RVec3.crossR z x = y) (hyy : RVec3.dotR y y = 1) :
    veLookAt pos (RVec3.addV pos z) u = some (x, y, z, pos) := by
  have hsub : RVec3.sub (RVec3.addV pos z) pos = z := by
    cases pos with
    | mk p1 p2 p3 =>
      cases z with
      | mk z1 z2 z3 =>
        simp only [RVec3.sub, RVec3.addV, RVec3.mk.injEq]
        refine ⟨by ring, by ring, by ring⟩
  unfold veLookAt
  rw [hsub, normalizeR_of_ne (by rw [hz]; norm_num), unitDir_of_unit hz]
  simp only [Option.some_bind]
  rw [normalizeR_of_ne (by rw [hu]; norm_num), unitDir_of_unit hu]
  simp only [Option.some_bind]
  rw [if_neg (by rw [hzu]; norm_num)]
  simp only [Option.some_bind]
  rw [hx, normalizeR_of_ne (by rw [hxx]; norm_num), unitDir_of_unit hxx]
  simp only [Option.some_bind]
  rw [hy, normalizeR_of_ne (by rw [hyy]; norm_num), unitDir_of_unit hyy]
  simp [Option.map]

/-- **C5 counterexample.** After `updateShadowCameras` the first shadow
camera of a point light has `m_fov = 91`, not the 90 degrees the claim
states (the source comment even says "a sector has always 90 deg fov",
but the assignment is `pShadowCamera->m_fov = 91.0f`). -/
theorem pointLight_fov_is_91_not_90 :
    ((updateShadowCamerasPoint ⟨0,0,0⟩ 1 vePointLightShadowCameras).headD
        defaultProjCam).fov = 91
    ∧ ((updateShadowCamerasPoint ⟨0,0,0⟩ 1 vePointLightShadowCameras).headD
        defaultProjCam).fov ≠ 90 := by
  have h : ((updateShadowCamerasPoint ⟨0,0,0⟩ 1
      vePointLightShadowCameras).headD defaultProjCam).fov = 91 := by
    simp [updateShadowCamerasPoint, vePointLightShadowCameras,
      List.range_succ]
  refine ⟨h, ?_⟩
  rw [h]
  norm_num

/-- **C5 (amended).** A point light always owns exactly 6 shadow cameras
(the constructor creates 6 and `updateShadowCameras` preserves any count),
and after `updateShadowCameras`, for any light position and reach, every
one of them is a projective camera with aspect ratio 1, a **91**-degree
field of view (the code stores 91, not the claimed 90), near plane 0.1,
far plane `0.1 + m_param[0]`, full-range fractions (0, 1), and is oriented
via `lookAt` from the light's world position along the face's axis-aligned
direction with its matching up vector — the resulting transforms are
exactly the six NaN-free orthonormal bases below, whose z column is the
face direction. -/
theorem pointLight_shadowCameras (pos : RVec3) (param0 : ℝ) :
    vePointLightShadowCameras.length = 6
    ∧ (∀ cams : List CameraProj,
        (updateShadowCamerasPoint pos param0 cams).length = cams.length)
    ∧ ((updateShadowCamerasPoint pos param0 vePointLightShadowCameras).map
        (fun c => (c.aspect, c.fov, c.nearPlane, c.farPlane,
          c.nearPlaneFraction, c.farPlaneFraction)))
        = List.replicate 6 (1, 91, 1/10, 1/10 + param0, 0, 1)
    ∧ ((updateShadowCamerasPoint pos param0 vePointLightShadowCameras).map
        (fun c => c.transform))
        = [some (⟨0,0,-1⟩, ⟨0,1,0⟩, ⟨1,0,0⟩, pos),
           some (⟨0,0,1⟩, ⟨0,1,0⟩, ⟨-1,0,0⟩, pos),
           some (⟨1,0,0⟩, ⟨0,0,-1⟩, ⟨0,1,0⟩, pos),
           some (⟨1,0,0⟩, ⟨0,0,1⟩, ⟨0,-1,0⟩, pos),
           some (⟨1,0,0⟩, ⟨0,1,0⟩, ⟨0,0,1⟩, pos),
           some (⟨-1,0,0⟩, ⟨0,1,0⟩, ⟨0,0,-1⟩, pos)] := by
  refine ⟨rfl, ?_, ?_, ?_⟩
  · intro cams
    simp [updateShadowCamerasPoint]
  · simp [updateShadowCamerasPoint, vePointLightShadowCameras,
      List.range_succ, List.replicate]
  · have h0 : veLookAt pos (RVec3.addV pos ⟨1,0,0⟩) ⟨0,1,0⟩
        = some (⟨0,0,-1⟩, ⟨0,1,0⟩, ⟨1,0,0⟩, pos) :=
      veLookAt_unit_axes pos ⟨1,0,0⟩ ⟨0,1,0⟩ ⟨0,0,-1⟩ ⟨0,1,0⟩
        (by norm_num [RVec3.dotR]) (by norm_num [RVec3.dotR])
        (by norm_num [RVec3.dotR]) (by norm_num [RVec3.crossR])
        (by norm_num [RVec3.dotR]) (by norm_num [RVec3.crossR])
        (by norm_num [RVec3.dotR])
    have h1 : veLookAt pos (RVec3.addV pos ⟨-1,0,0⟩) ⟨0,1,0⟩
        = some (⟨0,0,1⟩, ⟨0,1,0⟩, ⟨-1,0,0⟩, pos) :=
      veLookAt_unit_axes pos ⟨-1,0,0⟩ ⟨0,1,0⟩ ⟨0,0,1⟩ ⟨0,1,0⟩
        (by norm_num [RVec3.dotR]) (by norm_num [RVec3.dotR])
        (by norm_num [RVec3.dotR]) (by norm_num [RVec3.crossR])
        (by norm_num [RVec3.dotR]) (by norm_num [RVec3.crossR])
        (by norm_num [RVec3.dotR])
    have h2 : veLookAt pos (RVec3.addV pos ⟨0,1,0⟩) ⟨0,0,-1⟩
        = some (⟨1,0,0⟩, ⟨0,0,-1⟩, ⟨0,1,0⟩, pos) :=
      veLookAt_unit_axes pos ⟨0,1,0⟩ ⟨0,0,-1⟩ ⟨1,0,0⟩ ⟨0,0,-1⟩
        (by norm_num [RVec3.dotR]) (by norm_num [RVec3.dotR])
        (by norm_num [RVec3.dotR]) (by norm_num [RVec3.crossR])
        (by norm_num [RVec3.dotR]) (by norm_num [RVec3.crossR])
        (by norm_num [RVec3.dotR])
    have h3 : veLookAt pos (RVec3.addV pos ⟨0,-1,0⟩) ⟨0,0,1⟩
        = some (⟨1,0,0⟩, ⟨0,0,1⟩, ⟨0,-1,0⟩, pos) :=
      veLookAt_unit_axes pos ⟨0,-1,0⟩ ⟨0,0,1⟩ ⟨1,0,0⟩ ⟨0,0,1⟩
        (by norm_num [RVec3.dotR]) (by norm_num [RVec3.dotR])
        (by norm_num [RVec3.dotR]) (by norm_num [RVec3.crossR])
        (by norm_num [RVec3.dotR]) (by norm_num [RVec3.crossR])
        (by norm_num [RVec3.dotR])
    have h4 : veLookAt pos (RVec3.addV pos ⟨0,0,1⟩) ⟨0,1,0⟩
        = some (⟨1,0,0⟩, ⟨0,1,0⟩, ⟨0,0,1⟩, pos) :=
      veLookAt_unit_axes pos ⟨0,0,1⟩ ⟨0,1,0⟩ ⟨1,0,0⟩ ⟨0,1,0⟩
        (by norm_num [RVec3.dotR]) (by norm_num [RVec3.dotR])
        (by norm_num [RVec3.dotR]) (by norm_num [RVec3.crossR])
        (by norm_num [RVec3.dotR]) (by norm_num [RVec3.crossR])
        (by norm_num [RVec3.dotR])
    have h5 : veLookAt pos (RVec3.addV pos ⟨0,0,-1⟩) ⟨0,1,0⟩
        = some (⟨-1,0,0⟩, ⟨0,1,0⟩, ⟨0,0,-1⟩, pos) :=
      veLookAt_unit_axes pos ⟨0,0,-1⟩ ⟨0,1,0⟩ ⟨-1,0,0⟩ ⟨0,1,0⟩
        (by norm_num [RVec3.dotR]) (by norm_num [RVec3.dotR])
        (by norm_num [RVec3.dotR]) (by norm_num [RVec3.crossR])
        (by norm_num [RVec3.dotR]) (by norm_num [RVec3.crossR])
        (by norm_num [RVec3.dotR])
    simp only [updateShadowCamerasPoint, vePointLightShadowCameras,
      List.length_replicate, List.range_succ, List.range_zero,
      List.nil_append, List.cons_append, List.map_cons, List.map_nil,
      List.map_append, pointShadowZAxis, pointShadowUp]
    simp only [List.getD, List.get?, Option.getD]
    rw [h0, h1, h2, h3, h4, h5]

end VVE
